import Mathlib

/-!
Formal model of `affiliate.py`, a script that numbers affiliations for a
list of authors and renders the result as HTML and LaTeX.

The script is embedded shallowly:
  * input files are lists of lines (`List String`);
  * Python `str.split(c)`, `str.strip()`, `str.rstrip()` and
    `sep.join(...)` are `pySplit`, `pyStrip`, `pyRstrip` and `pyJoin`,
    implemented over the character lists so that they compute by kernel
    reduction;
  * Python `dict` / `OrderedDict` is an association list
    `List (String × v)` with insertion-order semantics: `dinsert`
    updates an existing key in place (keeping its position) and appends
    a new key at the end, exactly as CPython dictionaries do;
  * a raised exception is `Except.error`; `PyErr.valueErr` is the
    `ValueError` from tuple unpacking of a bad split, `PyErr.keyErr` a
    dictionary `KeyError`, and `PyErr.exc msg` the explicit
    `raise Exception(msg)`;
  * `sorted` is the stable insertion sort `sortByLe` with a key
    function;
  * the files written by `main` are modelled by the pair of strings the
    script would write: an error result means no output is produced,
    since in the script every `raise` happens before any `open(..., 'w')`.
-/

deriving instance DecidableEq for Except

/-- Errors a run of the script can raise. -/
inductive PyErr where
  | valueErr : PyErr
  | keyErr : String → PyErr
  | exc : String → PyErr
deriving DecidableEq

/-- Split a character list at every occurrence of `c`, keeping empty
pieces, mirroring Python `str.split(c)` for a one-character separator. -/
def splitChar (c : Char) : List Char → List (List Char)
  | [] => [[]]
  | x :: xs =>
    if x = c then [] :: splitChar c xs
    else
      match splitChar c xs with
      | [] => [[x]]
      | y :: ys => (x :: y) :: ys

/-- Python `s.split(c)` for a single-character separator. -/
def pySplit (c : Char) (s : String) : List String :=
  (splitChar c s.data).map fun l => String.mk l

/-- Python `s.strip()`: remove leading and trailing whitespace. -/
def pyStrip (s : String) : String :=
  String.mk (((s.data.dropWhile Char.isWhitespace).reverse.dropWhile
    Char.isWhitespace).reverse)

/-- Python `s.rstrip()`: remove trailing whitespace. -/
def pyRstrip (s : String) : String :=
  String.mk ((s.data.reverse.dropWhile Char.isWhitespace).reverse)

/-- Python `sep.join(pieces)`. -/
def pyJoin (sep : String) : List String → String
  | [] => ""
  | [x] => x
  | x :: y :: xs => x ++ sep ++ pyJoin sep (y :: xs)

/-- Concatenation of a list of strings. -/
def strConcat : List String → String
  | [] => ""
  | x :: xs => x ++ strConcat xs

/-- Evaluate an effectful function on every element from left to right,
stopping at the first raised error, as a Python `for` loop or list
comprehension does. -/
def exMapM {α β : Type} (f : α → Except PyErr β) : List α → Except PyErr (List β)
  | [] => Except.ok []
  | a :: rest => do
    let b ← f a
    let bs ← exMapM f rest
    pure (b :: bs)

/-- Assignment `d[k] = v` on a Python dict kept as an association list:
an existing key keeps its position and gets the new value, a new key is
appended at the end. -/
def dinsert {β : Type} (m : List (String × β)) (k : String) (v : β) :
    List (String × β) :=
  if m.any (fun p => p.1 == k) then
    m.map (fun p => if p.1 == k then (k, v) else p)
  else m ++ [(k, v)]

/-- Lookup `d[k]` on a Python dict: the value, or a `KeyError`. -/
def dictGet {β : Type} (m : List (String × β)) (k : String) :
    Except PyErr β :=
  match m.lookup k with
  | some v => Except.ok v
  | none => Except.error (PyErr.keyErr k)

/-- One line of the authors file: `line.strip().split('\t')` unpacked
into author and comma-separated affiliation shorthands
(`affiliate.py` lines 27 and 28). -/
def parseAuthorLine (line : String) : Except PyErr (String × List String) :=
  match pySplit '\t' (pyStrip line) with
  | [author, affs] => Except.ok (author, pySplit ',' affs)
  | _ => Except.error PyErr.valueErr

/-- Loop of `read_authors` (lines 26 to 29), carrying the dict built so
far. -/
def read_authors_from (acc : List (String × List String)) :
    List String → Except PyErr (List (String × List String))
  | [] => Except.ok acc
  | line :: rest => do
    let (author, affs) ← parseAuthorLine line
    read_authors_from (dinsert acc author affs) rest

/-- `read_authors` of `affiliate.py`: build the ordered dict of authors
from the lines of the authors file. -/
def read_authors (lines : List String) :
    Except PyErr (List (String × List String)) :=
  read_authors_from [] lines

/-- One line of the affiliations file: `line.rstrip().split('\t')`
unpacked into shorthand and full name (`affiliate.py` line 48). -/
def parseAffiliationLine (line : String) : Except PyErr (String × String) :=
  match pySplit '\t' (pyRstrip line) with
  | [shorthand, fullname] => Except.ok (shorthand, fullname)
  | _ => Except.error PyErr.valueErr

/-- Loop of `read_affiliations` (lines 47 to 49), carrying the dict
built so far. -/
def read_affiliations_from (acc : List (String × String)) :
    List String → Except PyErr (List (String × String))
  | [] => Except.ok acc
  | line :: rest => do
    let (shorthand, fullname) ← parseAffiliationLine line
    read_affiliations_from (dinsert acc shorthand fullname) rest

/-- `read_affiliations` of `affiliate.py`: build the dict from shorthand
to full name from the lines of the affiliations file. -/
def read_affiliations (lines : List String) :
    Except PyErr (List (String × String)) :=
  read_affiliations_from [] lines

/-- The message of the exception raised by `main` for an affiliation
with no name (`affiliate.py` lines 62 to 64). -/
def unknownAffMsg (author affiliation : String) : String :=
  "Author " ++ author ++ " has affiliation " ++ affiliation ++
    " but the name of that affiliation was not given"

/-- Inner loop of the verification step of `main` (lines 60 to 64):
raise on the first shorthand of this author that is not a key of the
affiliations dict. -/
def checkAuthor (author : String) (affiliations : List (String × String)) :
    List String → Except PyErr Unit
  | [] => Except.ok ()
  | a :: rest =>
    if (affiliations.lookup a).isSome then checkAuthor author affiliations rest
    else Except.error (PyErr.exc (unknownAffMsg author a))

/-- Verification step of `main` (lines 58 to 64): every affiliation of
every author must have a name. -/
def checkAffiliations : List (String × List String) →
    List (String × String) → Except PyErr Unit
  | [], _ => Except.ok ()
  | p :: rest, affiliations => do
    checkAuthor p.1 affiliations p.2
    checkAffiliations rest affiliations

/-- Inner numbering loop of `main` (lines 70 to 73) over one author's
affiliation list: state is the dict `affiliations_number` (as an
association list) together with `curr_num`. -/
def numberAffs : List (String × Nat) × Nat → List String →
    List (String × Nat) × Nat
  | st, [] => st
  | (acc, curr), a :: rest =>
    if (acc.lookup a).isSome then numberAffs (acc, curr) rest
    else numberAffs (acc ++ [(a, curr)], curr + 1) rest

/-- The dict `affiliations_number` built by `main` (lines 66 to 73):
scan authors in order, each author's shorthand list in order, and give
each newly seen shorthand the next number starting from 1. -/
def assign_numbers (authors : List (String × List String)) :
    List (String × Nat) :=
  (authors.foldl (fun st p => numberAffs st p.2) ([], 1)).1

/-- Stable insertion into a list sorted by the key function `f`,
placing `x` before the first element whose key is not smaller. -/
def insertByLe {α : Type} (f : α → Nat) (x : α) : List α → List α
  | [] => [x]
  | y :: ys => if f x ≤ f y then x :: y :: ys else y :: insertByLe f x ys

/-- Python `sorted(l, key=f)`: a stable sort, ascending in `f`. -/
def sortByLe {α : Type} (f : α → Nat) : List α → List α
  | [] => []
  | x :: xs => insertByLe f x (sortByLe f xs)

/-- `affiliations_ordered` of `main` (lines 74 and 75): the keys of the
affiliations dict sorted by their assigned number.  Python `sorted`
evaluates the key function `lambda x: affiliations_number[x]` on every
element, so a key with no assigned number raises a `KeyError`. -/
def affiliations_ordered (affiliations : List (String × String))
    (numbering : List (String × Nat)) : Except PyErr (List String) := do
  let keyed ← exMapM (fun k => do
    let n ← dictGet numbering k
    pure (k, n)) (affiliations.map Prod.fst)
  pure ((sortByLe Prod.snd keyed).map Prod.fst)

/-- `numbers_str` for one author (lines 81 and 82): the author's
affiliation numbers, sorted ascending, comma-joined. -/
def numbers_str_of (numbering : List (String × Nat)) (affs : List String) :
    Except PyErr String := do
  let numbers ← exMapM (dictGet numbering) affs
  pure (pyJoin "," ((sortByLe id numbers).map (fun n => toString n)))

/-- `author_mbox` of `main` (lines 92 to 94): everything before the last
space-separated token in one mbox, the last token in another. -/
def author_mbox (author : String) : String :=
  "\\mbox\x7b" ++ pyJoin " " (pySplit ' ' author).dropLast ++ "\x7d " ++
    "\\mbox\x7b" ++ (pySplit ' ' author).getLastD "" ++ "\x7d"

/-- Author rendering loop of `main` (lines 78 to 95), accumulating
`author_html` and `author_latex`; `i` is the `enumerate` index. -/
def authorLoop (numbering : List (String × Nat)) :
    List (String × List String) → Nat → String → String →
    Except PyErr (String × String)
  | [], _, html, latex => Except.ok (html, latex)
  | (author, affs) :: rest, i, html, latex => do
    let ns ← numbers_str_of numbering affs
    authorLoop numbering rest (i + 1)
      (html ++ (if i > 0 then ", " else "") ++ author ++ "<sup>" ++ ns ++ "</sup>")
      (latex ++ (if i > 0 then ",\n" else "") ++ author_mbox author ++
        "$^\x7b" ++ ns ++ "\x7d$")

/-- One HTML footer entry (line 107): superscript number, full name,
trailing period. -/
def htmlFooterEntry (number : Nat) (fullname : String) : String :=
  "<sup>" ++ toString number ++ "</sup>" ++ fullname ++ "."

/-- One LaTeX footer entry (line 108): superscript number, full name,
trailing period, terminated by a newline. -/
def latexFooterEntry (number : Nat) (fullname : String) : String :=
  "$^\x7b" ++ toString number ++ "\x7d$" ++ fullname ++ ".\n"

/-- Affiliation footer loop of `main` (lines 98 to 108), accumulating
`affiliations_html` and `affiliations_latex`; `i` is the `enumerate`
index. -/
def footerLoop (numbering : List (String × Nat))
    (affiliations : List (String × String)) :
    List String → Nat → String → String → Except PyErr (String × String)
  | [], _, fh, fl => Except.ok (fh, fl)
  | a :: rest, i, fh, fl => do
    let n ← dictGet numbering a
    let fullname ← dictGet affiliations a
    footerLoop numbering affiliations rest (i + 1)
      (fh ++ (if i > 0 then " " else "") ++ htmlFooterEntry n fullname)
      (fl ++ latexFooterEntry n fullname)

/-- The LaTeX file content written by `main` (lines 117 to 129). -/
def latexDocument (author_latex affiliations_latex : String) : String :=
  "%%%%%%%%%%%%%%%%%%%%%\n" ++ "%% LIST OF AUTHORS %%\n" ++
    "%%%%%%%%%%%%%%%%%%%%%\n" ++ author_latex ++
    "%%%%%%%%%%%%%%%%%%%%%\n" ++ "\n\n" ++
    "%%%%%%%%%%%%%%%%%%%%%%%%%%\n" ++ "%% LIST OF AFFILIATIONS %%\n" ++
    "%%%%%%%%%%%%%%%%%%%%%%%%%%\n" ++ affiliations_latex ++
    "%%%%%%%%%%%%%%%%%%%%%%%%%%\n"

/-- `main` of `affiliate.py` from the point where both input files are
parsed: validate, number, order, render; the result is the pair
(content of the HTML file, content of the LaTeX file), and an error
result means the script raised before writing anything. -/
def mainFromData (authors : List (String × List String))
    (affiliations : List (String × String)) : Except PyErr (String × String) := do
  checkAffiliations authors affiliations
  let ordered ← affiliations_ordered affiliations (assign_numbers authors)
  let (author_html, author_latex) ←
    authorLoop (assign_numbers authors) authors 0 "" ""
  let (affiliations_html, affiliations_latex) ←
    footerLoop (assign_numbers authors) affiliations ordered 0 "" ""
  pure (author_html ++ "<br><br>" ++ affiliations_html,
    latexDocument (author_latex ++ "\n") affiliations_latex)

/-- The whole of `main`, from the raw lines of the two input files. -/
def mainCompute (author_lines affiliation_lines : List String) :
    Except PyErr (String × String) := do
  let authors ← read_authors author_lines
  let affiliations ← read_affiliations affiliation_lines
  mainFromData authors affiliations

/-- Statement-side description of duplicate handling in the
affiliations file: the full name on the last line of the file whose
shorthand field is `s`, if any line has shorthand `s`.  Later lines are
preferred, so this is the value the claim says survives. -/
def lastValFor (s : String) : List String → Option String
  | [] => none
  | l :: rest =>
    match lastValFor s rest with
    | some v => some v
    | none =>
      match pySplit '\t' (pyRstrip l) with
      | [k, v] => if k = s then some v else none
      | _ => none

/-! Basic lemmas about the Python-style primitives. -/

theorem except_bind_ok {α β : Type} (a : α) (k : α → Except PyErr β) :
    (Except.ok a >>= k) = k a := rfl

theorem except_bind_error {α β : Type} (e : PyErr) (k : α → Except PyErr β) :
    ((Except.error e : Except PyErr α) >>= k) = Except.error e := rfl

theorem except_pure {α : Type} (a : α) :
    (pure a : Except PyErr α) = Except.ok a := rfl

theorem lookup_cons_eq {β : Type} (k k2 : String) (v : β)
    (rest : List (String × β)) :
    List.lookup k ((k2, v) :: rest) =
      if k = k2 then some v else List.lookup k rest := by
  by_cases h : k = k2
  · subst h; simp [List.lookup]
  · simp [List.lookup, h, beq_eq_false_iff_ne.mpr h]

theorem lookup_isSome_iff {β : Type} (m : List (String × β)) (k : String) :
    (m.lookup k).isSome = true ↔ k ∈ m.map Prod.fst := by
  induction m with
  | nil => simp [List.lookup]
  | cons p rest ih =>
    obtain ⟨k2, v⟩ := p
    rw [lookup_cons_eq]
    by_cases h : k = k2
    · subst h; simp
    · simp [h, ih]

theorem lookup_eq_none_iff {β : Type} (m : List (String × β)) (k : String) :
    m.lookup k = none ↔ k ∉ m.map Prod.fst := by
  rw [← lookup_isSome_iff]
  cases h : m.lookup k <;> simp [h]

theorem dictGet_ok_iff {β : Type} (m : List (String × β)) (k : String) (v : β) :
    dictGet m k = Except.ok v ↔ m.lookup k = some v := by
  unfold dictGet
  cases h : m.lookup k <;> simp

theorem dictGet_of_isSome {β : Type} (d : β) (m : List (String × β))
    (k : String) (h : (m.lookup k).isSome = true) :
    dictGet m k = Except.ok ((m.lookup k).getD d) := by
  unfold dictGet
  cases hh : m.lookup k
  · rw [hh] at h; simp at h
  · simp

theorem dictGet_error_of_none {β : Type} (m : List (String × β)) (k : String)
    (h : m.lookup k = none) : dictGet m k = Except.error (PyErr.keyErr k) := by
  unfold dictGet
  rw [h]

/-! Lemmas about `exMapM`. -/

theorem exMapM_dictGet_ok (m : List (String × Nat)) (l : List String)
    (h : ∀ a ∈ l, (m.lookup a).isSome = true) :
    exMapM (dictGet m) l = Except.ok (l.map (fun a => (m.lookup a).getD 0)) := by
  induction l with
  | nil => rfl
  | cons a rest ih =>
    have ha := h a (by simp)
    rw [exMapM, dictGet_of_isSome 0 m a ha, except_bind_ok,
      ih (fun b hb => h b (by simp [hb])), except_bind_ok]
    rfl

theorem exMapM_dictGet_ok_inv (m : List (String × Nat)) (l : List String)
    (ns : List Nat) (h : exMapM (dictGet m) l = Except.ok ns) :
    ns = l.map (fun a => (m.lookup a).getD 0) ∧
      ∀ a ∈ l, (m.lookup a).isSome = true := by
  induction l generalizing ns with
  | nil =>
    rw [exMapM] at h
    simp at h
    simp [h]
  | cons a rest ih =>
    rw [exMapM] at h
    cases hga : dictGet m a with
    | error e => rw [hga, except_bind_error] at h; exact absurd h (by simp)
    | ok v =>
      rw [hga, except_bind_ok] at h
      cases hrest : exMapM (dictGet m) rest with
      | error e => rw [hrest, except_bind_error] at h; exact absurd h (by simp)
      | ok vs =>
        rw [hrest, except_bind_ok] at h
        obtain ⟨hvs, hmem⟩ := ih vs hrest
        have hv : m.lookup a = some v := (dictGet_ok_iff m a v).mp hga
        have hns : ns = v :: vs := by
          have : (Except.ok (v :: vs) : Except PyErr (List Nat)) = Except.ok ns := h
          simpa using this.symm
        refine ⟨?_, ?_⟩
        · simp [hns, hvs, hv]
        · intro b hb
          rcases List.mem_cons.mp hb with hb | hb
          · subst hb; simp [hv]
          · exact hmem b hb

theorem exMapM_keyed_ok (numbering : List (String × Nat)) (keys : List String)
    (keyed : List (String × Nat))
    (h : exMapM (fun k => do
        let n ← dictGet numbering k
        pure (k, n)) keys = Except.ok keyed) :
    keyed.map Prod.fst = keys ∧
      ∀ p ∈ keyed, numbering.lookup p.1 = some p.2 := by
  induction keys generalizing keyed with
  | nil =>
    rw [exMapM] at h
    simp at h
    simp [h]
  | cons a rest ih =>
    rw [exMapM] at h
    cases hga : dictGet numbering a with
    | error e =>
      rw [hga] at h
      exact absurd h (by simp [except_bind_error])
    | ok v =>
      rw [hga] at h
      simp only [except_bind_ok] at h
      cases hrest : exMapM (fun k => do
          let n ← dictGet numbering k
          pure (k, n)) rest with
      | error e =>
        rw [hrest] at h
        simp only [except_pure, except_bind_ok, except_bind_error] at h
        exact absurd h (by simp)
      | ok vs =>
        rw [hrest] at h
        simp only [except_pure, except_bind_ok] at h
        obtain ⟨hfst, hmem⟩ := ih vs hrest
        have hv : numbering.lookup a = some v := (dictGet_ok_iff _ _ _).mp hga
        have hks : keyed = (a, v) :: vs := by
          have : (Except.ok ((a, v) :: vs) : Except PyErr (List (String × Nat))) =
              Except.ok keyed := h
          simpa using this.symm
        subst hks
        refine ⟨by simp [hfst], ?_⟩
        intro p hp
        rcases List.mem_cons.mp hp with hp | hp
        · subst hp; exact hv
        · exact hmem p hp

theorem exMapM_keyed_error (numbering : List (String × Nat))
    (keys : List String) (k : String) (hk : k ∈ keys)
    (hnone : numbering.lookup k = none) :
    ∃ k2 ∈ keys, numbering.lookup k2 = none ∧
      exMapM (fun k => do
        let n ← dictGet numbering k
        pure (k, n)) keys = Except.error (PyErr.keyErr k2) := by
  induction keys with
  | nil => simp at hk
  | cons a rest ih =>
    cases ha : numbering.lookup a with
    | none =>
      refine ⟨a, by simp, ha, ?_⟩
      rw [exMapM]
      simp only [dictGet_error_of_none _ _ ha, except_pure, except_bind_ok,
        except_bind_error]
    | some v =>
      have hk2 : k ∈ rest := by
        rcases List.mem_cons.mp hk with h | h
        · subst h; rw [ha] at hnone; exact absurd hnone (by simp)
        · exact h
      obtain ⟨k2, hk2mem, hk2none, hrest⟩ := ih hk2
      refine ⟨k2, by simp [hk2mem], hk2none, ?_⟩
      rw [exMapM]
      simp only [except_pure] at hrest
      simp only [(dictGet_ok_iff numbering a v).mpr ha, except_pure,
        except_bind_ok, hrest, except_bind_error]

/-! Lemmas about the stable sort `sortByLe`. -/

theorem insertByLe_perm {α : Type} (f : α → Nat) (x : α) (l : List α) :
    (insertByLe f x l).Perm (x :: l) := by
  induction l with
  | nil => rfl
  | cons y ys ih =>
    rw [insertByLe]
    by_cases h : f x ≤ f y
    · simp [h]
    · simp only [h, if_false]
      exact (ih.cons y).trans (List.Perm.swap x y ys)

theorem mem_insertByLe {α : Type} (f : α → Nat) (x a : α) (l : List α) :
    a ∈ insertByLe f x l ↔ a = x ∨ a ∈ l := by
  rw [(insertByLe_perm f x l).mem_iff]
  simp

theorem sortByLe_perm {α : Type} (f : α → Nat) (l : List α) :
    (sortByLe f l).Perm l := by
  induction l with
  | nil => rfl
  | cons x xs ih =>
    exact (insertByLe_perm f x (sortByLe f xs)).trans (ih.cons x)

theorem insertByLe_pairwise {α : Type} (f : α → Nat) (x : α) (l : List α)
    (h : l.Pairwise (fun a b => f a ≤ f b)) :
    (insertByLe f x l).Pairwise (fun a b => f a ≤ f b) := by
  induction l with
  | nil => simp [insertByLe]
  | cons y ys ih =>
    rcases List.pairwise_cons.mp h with ⟨hy, hys⟩
    rw [insertByLe]
    by_cases hxy : f x ≤ f y
    · rw [if_pos hxy]
      refine List.pairwise_cons.mpr ⟨?_, h⟩
      intro b hb
      rcases List.mem_cons.mp hb with hb | hb
      · subst hb; exact hxy
      · exact le_trans hxy (hy b hb)
    · rw [if_neg hxy]
      refine List.pairwise_cons.mpr ⟨?_, ih hys⟩
      intro b hb
      rcases (mem_insertByLe f x b ys).mp hb with hb | hb
      · subst hb; exact le_of_not_le hxy
      · exact hy b hb

theorem sortByLe_pairwise {α : Type} (f : α → Nat) (l : List α) :
    (sortByLe f l).Pairwise (fun a b => f a ≤ f b) := by
  induction l with
  | nil => simp [sortByLe]
  | cons x xs ih => exact insertByLe_pairwise f x (sortByLe f xs) ih

theorem sortByLe_id_eq_of_perm (l1 l2 : List Nat) (hp : l1.Perm l2) :
    sortByLe id l1 = sortByLe id l2 := by
  have h1 : (sortByLe id l1).Sorted (· ≤ ·) := sortByLe_pairwise id l1
  have h2 : (sortByLe id l2).Sorted (· ≤ ·) := sortByLe_pairwise id l2
  exact List.eq_of_perm_of_sorted
    ((sortByLe_perm id l1).trans (hp.trans (sortByLe_perm id l2).symm)) h1 h2

/-! Lemmas about `pyJoin` and `strConcat`. -/

theorem pyJoin_cons (sep x : String) (xs : List String) :
    pyJoin sep (x :: xs) = x ++ strConcat (xs.map (fun e => sep ++ e)) := by
  induction xs generalizing x with
  | nil => simp [pyJoin, strConcat]
  | cons y ys ih =>
    rw [pyJoin, ih y]
    simp [strConcat, String.append_assoc]

/-! Lemmas about the numbering loop. -/

theorem numberAffs_spec (l : List String) (acc : List (String × Nat)) :
    acc <+: (numberAffs (acc, acc.length + 1) l).1 ∧
    (numberAffs (acc, acc.length + 1) l).2 =
      (numberAffs (acc, acc.length + 1) l).1.length + 1 ∧
    (∀ s, s ∈ (numberAffs (acc, acc.length + 1) l).1.map Prod.fst ↔
      s ∈ acc.map Prod.fst ∨ s ∈ l) ∧
    ((acc.map Prod.fst).Nodup →
      ((numberAffs (acc, acc.length + 1) l).1.map Prod.fst).Nodup) ∧
    (acc.map Prod.snd = List.range' 1 acc.length →
      (numberAffs (acc, acc.length + 1) l).1.map Prod.snd =
        List.range' 1 (numberAffs (acc, acc.length + 1) l).1.length) := by
  induction l generalizing acc with
  | nil =>
    refine ⟨List.prefix_refl acc, rfl, ?_, fun h => h, ?_⟩
    · intro s; simp [numberAffs]
    · intro h; simpa [numberAffs] using h
  | cons a rest ih =>
    by_cases ha : (acc.lookup a).isSome = true
    · have hmem : a ∈ acc.map Prod.fst := (lookup_isSome_iff acc a).mp ha
      have hrw : numberAffs (acc, acc.length + 1) (a :: rest) =
          numberAffs (acc, acc.length + 1) rest := by
        rw [numberAffs, if_pos ha]
      rw [hrw]
      obtain ⟨h1, h2, h3, h4, h5⟩ := ih acc
      refine ⟨h1, h2, ?_, h4, h5⟩
      intro s
      rw [h3 s]
      constructor
      · rintro (h | h)
        · exact Or.inl h
        · exact Or.inr (by simp [h])
      · rintro (h | h)
        · exact Or.inl h
        · rcases List.mem_cons.mp h with h | h
          · subst h; exact Or.inl hmem
          · exact Or.inr h
    · have hnone : a ∉ acc.map Prod.fst := by
        rw [← lookup_isSome_iff]
        simpa using ha
      have hlen : acc.length + 1 + 1 = (acc ++ [(a, acc.length + 1)]).length + 1 := by
        simp
      have hrw : numberAffs (acc, acc.length + 1) (a :: rest) =
          numberAffs (acc ++ [(a, acc.length + 1)],
            (acc ++ [(a, acc.length + 1)]).length + 1) rest := by
        rw [numberAffs, if_neg ha, hlen]
      rw [hrw]
      obtain ⟨h1, h2, h3, h4, h5⟩ := ih (acc ++ [(a, acc.length + 1)])
      refine ⟨?_, h2, ?_, ?_, ?_⟩
      · exact List.IsPrefix.trans ⟨[(a, acc.length + 1)], rfl⟩ h1
      · intro s
        rw [h3 s]
        simp only [List.map_append, List.map_cons, List.map_nil,
          List.mem_append, List.mem_singleton, List.mem_cons]
        tauto
      · intro hnd
        apply h4
        rw [List.map_append]
        simp only [List.map_cons, List.map_nil]
        rw [← List.concat_eq_append]
        exact hnd.concat hnone
      · intro hv
        apply h5
        rw [List.map_append]
        simp only [List.map_cons, List.map_nil]
        rw [hv, List.length_append]
        simp [List.range'_1_concat, Nat.add_comm]

theorem assignLoop_spec (authors : List (String × List String))
    (acc : List (String × Nat)) :
    acc <+: (authors.foldl (fun st p => numberAffs st p.2)
        (acc, acc.length + 1)).1 ∧
    (authors.foldl (fun st p => numberAffs st p.2) (acc, acc.length + 1)).2 =
      (authors.foldl (fun st p => numberAffs st p.2)
        (acc, acc.length + 1)).1.length + 1 ∧
    (∀ s, s ∈ (authors.foldl (fun st p => numberAffs st p.2)
        (acc, acc.length + 1)).1.map Prod.fst ↔
      s ∈ acc.map Prod.fst ∨ ∃ p ∈ authors, s ∈ p.2) ∧
    ((acc.map Prod.fst).Nodup →
      ((authors.foldl (fun st p => numberAffs st p.2)
        (acc, acc.length + 1)).1.map Prod.fst).Nodup) ∧
    (acc.map Prod.snd = List.range' 1 acc.length →
      (authors.foldl (fun st p => numberAffs st p.2)
        (acc, acc.length + 1)).1.map Prod.snd =
        List.range' 1 (authors.foldl (fun st p => numberAffs st p.2)
          (acc, acc.length + 1)).1.length) := by
  induction authors generalizing acc with
  | nil =>
    refine ⟨List.prefix_refl acc, rfl, ?_, fun h => h, ?_⟩
    · intro s; simp
    · intro h; simpa using h
  | cons p rest ih =>
    obtain ⟨g1, g2, g3, g4, g5⟩ := numberAffs_spec p.2 acc
    have hpair : numberAffs (acc, acc.length + 1) p.2 =
        ((numberAffs (acc, acc.length + 1) p.2).1,
          (numberAffs (acc, acc.length + 1) p.2).1.length + 1) := by
      rw [← g2]
    have hrw : (p :: rest).foldl (fun st q => numberAffs st q.2)
        (acc, acc.length + 1) =
        rest.foldl (fun st q => numberAffs st q.2)
          ((numberAffs (acc, acc.length + 1) p.2).1,
            (numberAffs (acc, acc.length + 1) p.2).1.length + 1) := by
      rw [List.foldl_cons, ← hpair]
    rw [hrw]
    obtain ⟨h1, h2, h3, h4, h5⟩ := ih (numberAffs (acc, acc.length + 1) p.2).1
    refine ⟨g1.trans h1, h2, ?_, fun hnd => h4 (g4 hnd), fun hv => h5 (g5 hv)⟩
    intro s
    rw [h3 s, g3 s]
    constructor
    · rintro ((h | h) | ⟨q, hq, hs⟩)
      · exact Or.inl h
      · exact Or.inr ⟨p, by simp, h⟩
      · exact Or.inr ⟨q, by simp [hq], hs⟩
    · rintro (h | ⟨q, hq, hs⟩)
      · exact Or.inl (Or.inl h)
      · rcases List.mem_cons.mp hq with hq | hq
        · subst hq; exact Or.inl (Or.inr hs)
        · exact Or.inr ⟨q, hq, hs⟩

/-- C1: scanning authors in input order (and each author's shorthand list
in its given order), `assign_numbers` numbers the referenced shorthands
bijectively with 1..K: its keys are exactly the referenced shorthands,
without repetition; its values are exactly the list 1, 2, ..., K where
K is the number of distinct referenced shorthands; and an already
assigned number is never changed when more authors are processed. -/
theorem assign_numbers_bijection (authors : List (String × List String)) :
    ((assign_numbers authors).map Prod.fst).Nodup ∧
    (assign_numbers authors).map Prod.snd =
      List.range' 1 (assign_numbers authors).length ∧
    (∀ s, s ∈ (assign_numbers authors).map Prod.fst ↔ ∃ p ∈ authors, s ∈ p.2) ∧
    (assign_numbers authors).length =
      ((authors.map Prod.snd).flatten).dedup.length ∧
    (∀ post, assign_numbers authors <+: assign_numbers (authors ++ post)) := by
  have base := assignLoop_spec authors []
  simp only [List.length_nil, List.map_nil] at base
  obtain ⟨b1, b2, b3, b4, b5⟩ := base
  have hnd : ((assign_numbers authors).map Prod.fst).Nodup := b4 List.nodup_nil
  have hmem : ∀ s, s ∈ (assign_numbers authors).map Prod.fst ↔
      ∃ p ∈ authors, s ∈ p.2 := by
    intro s
    rw [assign_numbers, b3 s]
    simp
  have hval : (assign_numbers authors).map Prod.snd =
      List.range' 1 (assign_numbers authors).length := b5 (by simp)
  refine ⟨hnd, hval, hmem, ?_, ?_⟩
  · have hperm : ((assign_numbers authors).map Prod.fst).Perm
        ((authors.map Prod.snd).flatten).dedup := by
      rw [List.perm_ext_iff_of_nodup hnd (List.nodup_dedup _)]
      intro s
      rw [hmem s, List.mem_dedup, List.mem_flatten]
      constructor
      · rintro ⟨p, hp, hs⟩
        exact ⟨p.2, List.mem_map_of_mem Prod.snd hp, hs⟩
      · rintro ⟨l, hl, hs⟩
        obtain ⟨p, hp, rfl⟩ := List.mem_map.mp hl
        exact ⟨p, hp, hs⟩
    simpa using hperm.length_eq
  · intro post
    rw [assign_numbers, assign_numbers, List.foldl_append]
    have hstate : authors.foldl (fun st p => numberAffs st p.2) ([], 0 + 1) =
        ((authors.foldl (fun st p => numberAffs st p.2) ([], 0 + 1)).1,
          (authors.foldl (fun st p => numberAffs st p.2) ([], 0 + 1)).1.length + 1) := by
      rw [← b2]
    rw [hstate]
    exact (assignLoop_spec post _).1

/-! Lemmas about the validation step. -/

theorem checkAuthor_ok_forall (author : String)
    (table : List (String × String)) (l : List String)
    (h : checkAuthor author table l = Except.ok ()) :
    ∀ a ∈ l, (table.lookup a).isSome = true := by
  induction l with
  | nil => simp
  | cons a rest ih =>
    rw [checkAuthor] at h
    by_cases ha : (table.lookup a).isSome = true
    · rw [if_pos ha] at h
      intro b hb
      rcases List.mem_cons.mp hb with hb | hb
      · subst hb; exact ha
      · exact ih h b hb
    · rw [if_neg ha] at h
      exact absurd h (by simp)

theorem checkAuthor_error_of_missing (author : String)
    (table : List (String × String)) (l : List String) (s : String)
    (hs : s ∈ l) (hnone : table.lookup s = none) :
    ∃ s2 ∈ l, table.lookup s2 = none ∧
      checkAuthor author table l =
        Except.error (PyErr.exc (unknownAffMsg author s2)) := by
  induction l with
  | nil => simp at hs
  | cons a rest ih =>
    by_cases ha : (table.lookup a).isSome = true
    · have hs2 : s ∈ rest := by
        rcases List.mem_cons.mp hs with h | h
        · subst h; rw [hnone] at ha; simp at ha
        · exact h
      obtain ⟨s2, hs2mem, hs2none, hrec⟩ := ih hs2
      exact ⟨s2, by simp [hs2mem], hs2none, by rw [checkAuthor, if_pos ha, hrec]⟩
    · refine ⟨a, by simp, ?_, by rw [checkAuthor, if_neg ha]⟩
      cases hla : table.lookup a
      · rfl
      · rw [hla] at ha; simp at ha

theorem checkAffiliations_ok_forall (authors : List (String × List String))
    (table : List (String × String))
    (h : checkAffiliations authors table = Except.ok ()) :
    ∀ p ∈ authors, ∀ a ∈ p.2, (table.lookup a).isSome = true := by
  induction authors with
  | nil => simp
  | cons p rest ih =>
    rw [checkAffiliations] at h
    cases hp : checkAuthor p.1 table p.2 with
    | error e => rw [hp, except_bind_error] at h; exact absurd h (by simp)
    | ok u =>
      cases u
      rw [hp, except_bind_ok] at h
      intro q hq a ha
      rcases List.mem_cons.mp hq with hq | hq
      · subst hq; exact checkAuthor_ok_forall q.1 table q.2 hp a ha
      · exact ih h q hq a ha

theorem checkAuthor_error_shape (author : String)
    (table : List (String × String)) (l : List String) (e : PyErr)
    (h : checkAuthor author table l = Except.error e) :
    ∃ s2 ∈ l, table.lookup s2 = none ∧
      e = PyErr.exc (unknownAffMsg author s2) := by
  induction l with
  | nil => rw [checkAuthor] at h; exact absurd h (by simp)
  | cons a rest ih =>
    rw [checkAuthor] at h
    by_cases ha : (table.lookup a).isSome = true
    · rw [if_pos ha] at h
      obtain ⟨s2, hs2mem, hs2none, he⟩ := ih h
      exact ⟨s2, by simp [hs2mem], hs2none, he⟩
    · rw [if_neg ha] at h
      refine ⟨a, by simp, ?_, by simpa using h.symm⟩
      cases hla : table.lookup a
      · rfl
      · rw [hla] at ha; simp at ha

theorem checkAffiliations_error_of_missing
    (authors : List (String × List String)) (table : List (String × String))
    (author : String) (affs : List String) (s : String)
    (hmem : (author, affs) ∈ authors) (hs : s ∈ affs)
    (hnone : table.lookup s = none) :
    ∃ a2 s2, (∃ affs2, (a2, affs2) ∈ authors ∧ s2 ∈ affs2) ∧
      table.lookup s2 = none ∧
      checkAffiliations authors table =
        Except.error (PyErr.exc (unknownAffMsg a2 s2)) := by
  induction authors with
  | nil => simp at hmem
  | cons p rest ih =>
    cases hp : checkAuthor p.1 table p.2 with
    | error e =>
      obtain ⟨s2, hs2mem, hs2none, he⟩ :=
        checkAuthor_error_shape p.1 table p.2 e hp
      refine ⟨p.1, s2, ⟨p.2, by simp, hs2mem⟩, hs2none, ?_⟩
      rw [checkAffiliations, hp, except_bind_error, he]
    | ok u =>
      cases u
      rcases List.mem_cons.mp hmem with hq | hq
      · exfalso
        subst hq
        have := checkAuthor_ok_forall author table affs hp s hs
        rw [hnone] at this
        simp at this
      · obtain ⟨a2, s2, hex, hs2none, hrec⟩ := ih hq
        refine ⟨a2, s2, ?_, hs2none, ?_⟩
        · obtain ⟨affs2, haffs2, hs2⟩ := hex
          exact ⟨affs2, by simp [haffs2], hs2⟩
        · rw [checkAffiliations, hp, except_bind_ok, hrec]

/-- C3: if some author's affiliation list contains a shorthand that is
not a key of the affiliation table, `main` raises (before creating any
output) an exception whose message names an offending author together
with that author's missing shorthand: the result of the run is an
error, so neither output string is produced and no file is written. -/
theorem main_unknown_affiliation (authors : List (String × List String))
    (table : List (String × String)) (author : String) (affs : List String)
    (s : String) (hmem : (author, affs) ∈ authors) (hs : s ∈ affs)
    (hnone : table.lookup s = none) :
    ∃ a2 s2, (∃ affs2, (a2, affs2) ∈ authors ∧ s2 ∈ affs2) ∧
      table.lookup s2 = none ∧
      mainFromData authors table =
        Except.error (PyErr.exc (unknownAffMsg a2 s2)) := by
  obtain ⟨a2, s2, hex, hs2none, hchk⟩ :=
    checkAffiliations_error_of_missing authors table author affs s hmem hs hnone
  refine ⟨a2, s2, hex, hs2none, ?_⟩
  rw [mainFromData, hchk, except_bind_error]

/-- Witness for C3 at a concrete input: Bob references shorthand `b`,
which the affiliation table does not define. -/
theorem main_unknown_affiliation_witness :
    ∃ a2 s2,
      (∃ affs2, (a2, affs2) ∈ [("Alice", ["a"]), ("Bob", ["b"])] ∧ s2 ∈ affs2) ∧
      List.lookup s2 [("a", "MIT")] = none ∧
      mainFromData [("Alice", ["a"]), ("Bob", ["b"])] [("a", "MIT")] =
        Except.error (PyErr.exc (unknownAffMsg a2 s2)) :=
  main_unknown_affiliation [("Alice", ["a"]), ("Bob", ["b"])] [("a", "MIT")]
    "Bob" ["b"] "b" (by decide) (by decide) (by decide)

/-- C4: the comma-joined marker of one author is the author's
affiliation numbers sorted ascending; it is invariant under permuting
the author's shorthand list while the numbering is held fixed.  The
same `numbers_str` is used for the HTML and the LaTeX author entry. -/
theorem numbers_str_perm_invariant (numbering : List (String × Nat))
    (l1 l2 : List String) (hp : l1.Perm l2)
    (h : ∀ s ∈ l1, (numbering.lookup s).isSome = true) :
    numbers_str_of numbering l1 = numbers_str_of numbering l2 ∧
    ∃ ns : List Nat,
      numbers_str_of numbering l1 =
        Except.ok (pyJoin "," ((sortByLe id ns).map (fun n => toString n))) ∧
      (sortByLe id ns).Sorted (· ≤ ·) := by
  have h2 : ∀ s ∈ l2, (numbering.lookup s).isSome = true :=
    fun s hs => h s (hp.mem_iff.mpr hs)
  unfold numbers_str_of
  rw [exMapM_dictGet_ok numbering l1 h, exMapM_dictGet_ok numbering l2 h2,
    except_bind_ok, except_bind_ok]
  have hperm : (l1.map (fun a => (numbering.lookup a).getD 0)).Perm
      (l2.map (fun a => (numbering.lookup a).getD 0)) :=
    hp.map (fun a => (numbering.lookup a).getD 0)
  rw [sortByLe_id_eq_of_perm _ _ hperm]
  exact ⟨rfl, l2.map (fun a => (numbering.lookup a).getD 0), rfl,
    sortByLe_pairwise id _⟩

/-- Witness for C4 at a concrete input: the marker of `["b", "a"]` and
of its permutation `["a", "b"]` coincide under the numbering
`{a: 1, b: 2}`. -/
theorem numbers_str_perm_invariant_witness :
    numbers_str_of [("a", 1), ("b", 2)] ["b", "a"] =
        numbers_str_of [("a", 1), ("b", 2)] ["a", "b"] ∧
    ∃ ns : List Nat,
      numbers_str_of [("a", 1), ("b", 2)] ["b", "a"] =
        Except.ok (pyJoin "," ((sortByLe id ns).map (fun n => toString n))) ∧
      (sortByLe id ns).Sorted (· ≤ ·) :=
  numbers_str_perm_invariant [("a", 1), ("b", 2)] ["b", "a"] ["a", "b"]
    (by decide) (by decide)

/-! Lemmas about the ordering of affiliations and the rendering loops. -/

theorem affiliations_ordered_ok_spec (table : List (String × String))
    (numbering : List (String × Nat)) (ordered : List String)
    (h : affiliations_ordered table numbering = Except.ok ordered) :
    ordered.Perm (table.map Prod.fst) ∧
    (ordered.map (fun a => (numbering.lookup a).getD 0)).Pairwise (· ≤ ·) ∧
    (∀ a ∈ ordered, (numbering.lookup a).isSome = true) := by
  rw [affiliations_ordered] at h
  cases hk : exMapM (fun k => do
      let n ← dictGet numbering k
      pure (k, n)) (table.map Prod.fst) with
  | error e =>
    rw [hk, except_bind_error] at h
    exact absurd h (by simp)
  | ok keyed =>
    rw [hk, except_bind_ok, except_pure] at h
    obtain ⟨hfst, hmem⟩ := exMapM_keyed_ok numbering (table.map Prod.fst) keyed hk
    have hord : ordered = (sortByLe Prod.snd keyed).map Prod.fst := by
      simpa using h.symm
    have hsortmem : ∀ p ∈ sortByLe Prod.snd keyed, numbering.lookup p.1 = some p.2 :=
      fun p hp => hmem p ((sortByLe_perm Prod.snd keyed).mem_iff.mp hp)
    refine ⟨?_, ?_, ?_⟩
    · rw [hord, ← hfst]
      exact ((sortByLe_perm Prod.snd keyed).map Prod.fst)
    · rw [hord, List.map_map]
      have heq : (sortByLe Prod.snd keyed).map
          ((fun a => (numbering.lookup a).getD 0) ∘ Prod.fst) =
          (sortByLe Prod.snd keyed).map Prod.snd := by
        apply List.map_congr_left
        intro p hp
        simp [Function.comp, hsortmem p hp]
      rw [heq, List.pairwise_map]
      exact sortByLe_pairwise Prod.snd keyed
    · intro a ha
      rw [hord] at ha
      obtain ⟨p, hp, rfl⟩ := List.mem_map.mp ha
      simp [hsortmem p hp]

theorem mainFromData_ok_inv (authors : List (String × List String))
    (table : List (String × String)) (html latex : String)
    (h : mainFromData authors table = Except.ok (html, latex)) :
    ∃ ordered ahtml alatex fhtml flatex,
      checkAffiliations authors table = Except.ok () ∧
      affiliations_ordered table (assign_numbers authors) = Except.ok ordered ∧
      authorLoop (assign_numbers authors) authors 0 "" "" =
        Except.ok (ahtml, alatex) ∧
      footerLoop (assign_numbers authors) table ordered 0 "" "" =
        Except.ok (fhtml, flatex) ∧
      html = ahtml ++ "<br><br>" ++ fhtml ∧
      latex = latexDocument (alatex ++ "\n") flatex := by
  rw [mainFromData] at h
  cases hc : checkAffiliations authors table with
  | error e => rw [hc, except_bind_error] at h; exact absurd h (by simp)
  | ok u =>
    cases u
    rw [hc, except_bind_ok] at h
    cases ho : affiliations_ordered table (assign_numbers authors) with
    | error e => rw [ho, except_bind_error] at h; exact absurd h (by simp)
    | ok ordered =>
      rw [ho, except_bind_ok] at h
      cases ha : authorLoop (assign_numbers authors) authors 0 "" "" with
      | error e => rw [ha, except_bind_error] at h; exact absurd h (by simp)
      | ok ap =>
        obtain ⟨ahtml, alatex⟩ := ap
        rw [ha, except_bind_ok] at h
        cases hf : footerLoop (assign_numbers authors) table ordered 0 "" "" with
        | error e =>
          rw [hf] at h
          simp only [except_bind_error] at h
          exact absurd h (by simp)
        | ok fp =>
          obtain ⟨fhtml, flatex⟩ := fp
          rw [hf] at h
          simp only [except_bind_ok, except_pure, Except.ok.injEq,
            Prod.mk.injEq] at h
          obtain ⟨h1, h2⟩ := h
          exact ⟨ordered, ahtml, alatex, fhtml, flatex, rfl, rfl, rfl, hf,
            h1.symm, h2.symm⟩

/-- C2 counterexample: with author list `[("Alice", ["a"])]` and
affiliation table `{a: MIT, b: Stanford}`, the shorthand `b` is defined
but unreferenced, and the run does not succeed: `main` raises a
`KeyError` for `b` (in `sorted(..., key=lambda x: affiliations_number[x])`),
so no output at all is produced, contradicting the claim that the run
still succeeds with `b` merely left out of the footer. -/
theorem main_unreferenced_counterexample :
    mainFromData [("Alice", ["a"])] [("a", "MIT"), ("b", "Stanford")] =
      Except.error (PyErr.keyErr "b") := by decide

/-- C2 amended: an affiliation shorthand defined in the table but
referenced by no author indeed receives no number, but the program does
not succeed: while ordering the footer, `main` raises a `KeyError` on
some unreferenced table key, and no output is produced. -/
theorem main_unreferenced_key_fails (authors : List (String × List String))
    (table : List (String × String)) (k : String)
    (hv : checkAffiliations authors table = Except.ok ())
    (hk : k ∈ table.map Prod.fst)
    (hun : (assign_numbers authors).lookup k = none) :
    ∃ k2 ∈ table.map Prod.fst, (assign_numbers authors).lookup k2 = none ∧
      mainFromData authors table = Except.error (PyErr.keyErr k2) := by
  obtain ⟨k2, hk2mem, hk2none, hmap⟩ :=
    exMapM_keyed_error (assign_numbers authors) (table.map Prod.fst) k hk hun
  refine ⟨k2, hk2mem, hk2none, ?_⟩
  have ho : affiliations_ordered table (assign_numbers authors) =
      Except.error (PyErr.keyErr k2) := by
    rw [affiliations_ordered, hmap, except_bind_error]
  rw [mainFromData, hv, except_bind_ok, ho, except_bind_error]

/-- Witness for the amended C2 at the concrete input of the
counterexample: `b` is in the table, unreferenced, and the run fails. -/
theorem main_unreferenced_key_fails_witness :
    ∃ k2 ∈ ([("a", "MIT"), ("b", "Stanford")].map Prod.fst),
      (assign_numbers [("Alice", ["a"])]).lookup k2 = none ∧
      mainFromData [("Alice", ["a"])] [("a", "MIT"), ("b", "Stanford")] =
        Except.error (PyErr.keyErr k2) :=
  main_unreferenced_key_fails [("Alice", ["a"])]
    [("a", "MIT"), ("b", "Stanford")] "b" (by decide) (by decide) (by decide)

theorem footerLoop_pos (numbering : List (String × Nat))
    (table : List (String × String)) (l : List String)
    (h : ∀ a ∈ l, (numbering.lookup a).isSome = true ∧
      (table.lookup a).isSome = true) :
    ∀ i, 0 < i → ∀ fh fl,
      footerLoop numbering table l i fh fl = Except.ok
        (fh ++ strConcat (l.map fun a =>
          " " ++ htmlFooterEntry ((numbering.lookup a).getD 0)
            ((table.lookup a).getD "")),
         fl ++ strConcat (l.map fun a =>
          latexFooterEntry ((numbering.lookup a).getD 0)
            ((table.lookup a).getD ""))) := by
  induction l with
  | nil => intro i hi fh fl; simp [footerLoop, strConcat]
  | cons a rest ih =>
    intro i hi fh fl
    obtain ⟨hn, ht⟩ := h a (by simp)
    rw [footerLoop, dictGet_of_isSome 0 numbering a hn, except_bind_ok,
      dictGet_of_isSome "" table a ht, except_bind_ok,
      if_pos (by simpa using hi),
      ih (fun b hb => h b (by simp [hb])) (i + 1) (by omega)]
    simp [strConcat, String.append_assoc]

theorem footerLoop_zero (numbering : List (String × Nat))
    (table : List (String × String)) (l : List String)
    (h : ∀ a ∈ l, (numbering.lookup a).isSome = true ∧
      (table.lookup a).isSome = true) :
    footerLoop numbering table l 0 "" "" = Except.ok
      (pyJoin " " (l.map fun a =>
        htmlFooterEntry ((numbering.lookup a).getD 0)
          ((table.lookup a).getD "")),
       strConcat (l.map fun a =>
        latexFooterEntry ((numbering.lookup a).getD 0)
          ((table.lookup a).getD ""))) := by
  cases l with
  | nil => simp [footerLoop, pyJoin, strConcat]
  | cons a rest =>
    obtain ⟨hn, ht⟩ := h a (by simp)
    rw [footerLoop, dictGet_of_isSome 0 numbering a hn, except_bind_ok,
      dictGet_of_isSome "" table a ht, except_bind_ok, if_neg (by simp),
      footerLoop_pos numbering table rest (fun b hb => h b (by simp [hb])) 1
        (by omega)]
    rw [List.map_cons, pyJoin_cons, List.map_map]
    simp only [strConcat, String.append_assoc, Function.comp_def]
    simp [String.append_assoc]

/-- C5: on success, the HTML output written by `main` is the author
block, then the two line-break markers `<br><br>`, then the affiliation
footer; the footer lists the affiliations in ascending assigned-number
order, each entry being a superscript number immediately followed by
the full name and a trailing period, consecutive entries joined by one
space; the LaTeX footer consists of the corresponding entries each
terminated by a newline (`latexFooterEntry` ends in `.\n`). -/
theorem main_output_structure (authors : List (String × List String))
    (table : List (String × String)) (html latex : String)
    (h : mainFromData authors table = Except.ok (html, latex)) :
    ∃ ordered ahtml alatex,
      authorLoop (assign_numbers authors) authors 0 "" "" =
        Except.ok (ahtml, alatex) ∧
      affiliations_ordered table (assign_numbers authors) =
        Except.ok ordered ∧
      html = ahtml ++ "<br><br>" ++ pyJoin " " (ordered.map fun a =>
        htmlFooterEntry (((assign_numbers authors).lookup a).getD 0)
          ((table.lookup a).getD "")) ∧
      (ordered.map fun a =>
        ((assign_numbers authors).lookup a).getD 0).Pairwise (· ≤ ·) ∧
      latex = latexDocument (alatex ++ "\n")
        (strConcat (ordered.map fun a =>
          latexFooterEntry (((assign_numbers authors).lookup a).getD 0)
            ((table.lookup a).getD ""))) := by
  obtain ⟨ordered, ahtml, alatex, fhtml, flatex, hc, ho, ha, hf, hhtml, hlatex⟩ :=
    mainFromData_ok_inv authors table html latex h
  obtain ⟨hperm, hpair, hnum⟩ :=
    affiliations_ordered_ok_spec table (assign_numbers authors) ordered ho
  have hboth : ∀ a ∈ ordered,
      ((assign_numbers authors).lookup a).isSome = true ∧
      (table.lookup a).isSome = true := by
    intro a hao
    refine ⟨hnum a hao, ?_⟩
    rw [lookup_isSome_iff]
    exact hperm.mem_iff.mp hao
  have hfz := footerLoop_zero (assign_numbers authors) table ordered hboth
  rw [hf] at hfz
  simp only [Except.ok.injEq, Prod.mk.injEq] at hfz
  obtain ⟨hfh, hfl⟩ := hfz
  exact ⟨ordered, ahtml, alatex, ha, ho, by rw [hhtml, hfh], hpair,
    by rw [hlatex, hfl]⟩

set_option maxRecDepth 8192 in
/-- Witness for C5 at a concrete input with one author and one
affiliation, exhibiting the exact HTML and LaTeX contents. -/
theorem main_output_structure_witness :
    ∃ ordered ahtml alatex,
      authorLoop (assign_numbers [("Alice", ["a"])]) [("Alice", ["a"])] 0 "" "" =
        Except.ok (ahtml, alatex) ∧
      affiliations_ordered [("a", "MIT")] (assign_numbers [("Alice", ["a"])]) =
        Except.ok ordered ∧
      "Alice<sup>1</sup><br><br><sup>1</sup>MIT." =
        ahtml ++ "<br><br>" ++ pyJoin " " (ordered.map fun a =>
          htmlFooterEntry (((assign_numbers [("Alice", ["a"])]).lookup a).getD 0)
            ((List.lookup a [("a", "MIT")]).getD "")) ∧
      (ordered.map fun a =>
        ((assign_numbers [("Alice", ["a"])]).lookup a).getD 0).Pairwise (· ≤ ·) ∧
      "%%%%%%%%%%%%%%%%%%%%%\n%% LIST OF AUTHORS %%\n%%%%%%%%%%%%%%%%%%%%%\n\\mbox\x7b\x7d \\mbox\x7bAlice\x7d$^\x7b1\x7d$\n%%%%%%%%%%%%%%%%%%%%%\n\n\n%%%%%%%%%%%%%%%%%%%%%%%%%%\n%% LIST OF AFFILIATIONS %%\n%%%%%%%%%%%%%%%%%%%%%%%%%%\n$^\x7b1\x7d$MIT.\n%%%%%%%%%%%%%%%%%%%%%%%%%%\n" =
        latexDocument (alatex ++ "\n")
          (strConcat (ordered.map fun a =>
            latexFooterEntry (((assign_numbers [("Alice", ["a"])]).lookup a).getD 0)
              ((List.lookup a [("a", "MIT")]).getD ""))) :=
  main_output_structure [("Alice", ["a"])] [("a", "MIT")]
    "Alice<sup>1</sup><br><br><sup>1</sup>MIT."
    "%%%%%%%%%%%%%%%%%%%%%\n%% LIST OF AUTHORS %%\n%%%%%%%%%%%%%%%%%%%%%\n\\mbox\x7b\x7d \\mbox\x7bAlice\x7d$^\x7b1\x7d$\n%%%%%%%%%%%%%%%%%%%%%\n\n\n%%%%%%%%%%%%%%%%%%%%%%%%%%\n%% LIST OF AFFILIATIONS %%\n%%%%%%%%%%%%%%%%%%%%%%%%%%\n$^\x7b1\x7d$MIT.\n%%%%%%%%%%%%%%%%%%%%%%%%%%\n"
    (by decide)

/-! Lemmas about the input loaders. -/

theorem parseAuthorLine_error_of_badsplit (line : String)
    (h : (pySplit '\t' (pyStrip line)).length ≠ 2) :
    parseAuthorLine line = Except.error PyErr.valueErr := by
  unfold parseAuthorLine
  cases hl : pySplit '\t' (pyStrip line) with
  | nil => rfl
  | cons x xs =>
    cases xs with
    | nil => rfl
    | cons y ys =>
      cases ys with
      | nil => exact absurd (by rw [hl]; rfl) h
      | cons z zs => rfl

theorem parseAuthorLine_error_shape (line : String) (e : PyErr)
    (h : parseAuthorLine line = Except.error e) : e = PyErr.valueErr := by
  unfold parseAuthorLine at h
  cases hl : pySplit '\t' (pyStrip line) with
  | nil => rw [hl] at h; simpa using h.symm
  | cons x xs =>
    cases xs with
    | nil => rw [hl] at h; simpa using h.symm
    | cons y ys =>
      cases ys with
      | nil => rw [hl] at h; simp at h
      | cons z zs => rw [hl] at h; simpa using h.symm

theorem parseAffiliationLine_error_of_badsplit (line : String)
    (h : (pySplit '\t' (pyRstrip line)).length ≠ 2) :
    parseAffiliationLine line = Except.error PyErr.valueErr := by
  unfold parseAffiliationLine
  cases hl : pySplit '\t' (pyRstrip line) with
  | nil => rfl
  | cons x xs =>
    cases xs with
    | nil => rfl
    | cons y ys =>
      cases ys with
      | nil => exact absurd (by rw [hl]; rfl) h
      | cons z zs => rfl

theorem parseAffiliationLine_error_shape (line : String) (e : PyErr)
    (h : parseAffiliationLine line = Except.error e) : e = PyErr.valueErr := by
  unfold parseAffiliationLine at h
  cases hl : pySplit '\t' (pyRstrip line) with
  | nil => rw [hl] at h; simpa using h.symm
  | cons x xs =>
    cases xs with
    | nil => rw [hl] at h; simpa using h.symm
    | cons y ys =>
      cases ys with
      | nil => rw [hl] at h; simp at h
      | cons z zs => rw [hl] at h; simpa using h.symm

theorem read_authors_from_error (lines : List String) (line : String)
    (hmem : line ∈ lines)
    (hbad : parseAuthorLine line = Except.error PyErr.valueErr) :
    ∀ acc, read_authors_from acc lines = Except.error PyErr.valueErr := by
  induction lines with
  | nil => simp at hmem
  | cons l rest ih =>
    intro acc
    cases hp : parseAuthorLine l with
    | error e =>
      have he : e = PyErr.valueErr := parseAuthorLine_error_shape l e hp
      subst he
      rw [read_authors_from, hp, except_bind_error]
    | ok p =>
      obtain ⟨author, affs⟩ := p
      rw [read_authors_from, hp, except_bind_ok]
      rcases List.mem_cons.mp hmem with hl | hl
      · subst hl; rw [hbad] at hp; exact absurd hp (by simp)
      · exact ih hl (dinsert acc author affs)

theorem read_affiliations_from_error (lines : List String) (line : String)
    (hmem : line ∈ lines)
    (hbad : parseAffiliationLine line = Except.error PyErr.valueErr) :
    ∀ acc, read_affiliations_from acc lines = Except.error PyErr.valueErr := by
  induction lines with
  | nil => simp at hmem
  | cons l rest ih =>
    intro acc
    cases hp : parseAffiliationLine l with
    | error e =>
      have he : e = PyErr.valueErr := parseAffiliationLine_error_shape l e hp
      subst he
      rw [read_affiliations_from, hp, except_bind_error]
    | ok p =>
      obtain ⟨shorthand, fullname⟩ := p
      rw [read_affiliations_from, hp, except_bind_ok]
      rcases List.mem_cons.mp hmem with hl | hl
      · subst hl; rw [hbad] at hp; exact absurd hp (by simp)
      · exact ih hl (dinsert acc shorthand fullname)

/-- C6 counterexample: the authors-file line `a<tab>b<tab>` splits into
three tab-delimited fields (it has two tabs), yet loading succeeds,
because `read_authors` strips the line first and the trailing tab is
whitespace; the claim that any line without exactly two tab-delimited
fields makes loading fail is therefore false. -/
theorem read_authors_extra_tab_loads :
    (pySplit '\t' "a\tb\t").length = 3 ∧
    read_authors ["a\tb\t"] = Except.ok [("a", ["b"])] := by decide

/-- C6 amended: a line of either input file that, after the whitespace
trimming the loader applies first (`strip` for the authors file,
`rstrip` for the affiliations file), does not split into exactly two
tab-delimited fields makes loading fail with the `ValueError` from
tuple unpacking, so the run aborts. -/
theorem read_malformed_line_fails (lines : List String) (line : String)
    (hmem : line ∈ lines) :
    ((pySplit '\t' (pyStrip line)).length ≠ 2 →
      read_authors lines = Except.error PyErr.valueErr) ∧
    ((pySplit '\t' (pyRstrip line)).length ≠ 2 →
      read_affiliations lines = Except.error PyErr.valueErr) :=
  ⟨fun h => read_authors_from_error lines line hmem
      (parseAuthorLine_error_of_badsplit line h) [],
   fun h => read_affiliations_from_error lines line hmem
      (parseAffiliationLine_error_of_badsplit line h) []⟩

/-- Witness for the amended C6: a line with no tab at all makes both
loaders fail. -/
theorem read_malformed_line_fails_witness :
    read_authors ["ab"] = Except.error PyErr.valueErr ∧
    read_affiliations ["ab"] = Except.error PyErr.valueErr :=
  ⟨(read_malformed_line_fails ["ab"] "ab" (by decide)).1 (by decide),
   (read_malformed_line_fails ["ab"] "ab" (by decide)).2 (by decide)⟩

theorem any_beq_iff {β : Type} (m : List (String × β)) (k : String) :
    (m.any fun p => p.1 == k) = true ↔ k ∈ m.map Prod.fst := by
  simp only [List.any_eq_true, beq_iff_eq, List.mem_map]

theorem lookup_append_single {β : Type} (m : List (String × β))
    (k s : String) (v : β) :
    List.lookup s (m ++ [(k, v)]) =
      match m.lookup s with
      | some w => some w
      | none => if s = k then some v else none := by
  induction m with
  | nil =>
    simp only [List.nil_append, List.lookup_nil]
    rw [lookup_cons_eq]
    simp [List.lookup]
  | cons p rest ih =>
    obtain ⟨k2, v2⟩ := p
    rw [List.cons_append, lookup_cons_eq, lookup_cons_eq]
    by_cases h : s = k2
    · simp [h]
    · simp [h, ih]

theorem lookup_update_self {β : Type} (m : List (String × β)) (k : String)
    (v : β) (hk : k ∈ m.map Prod.fst) :
    List.lookup k (m.map fun p => if p.1 == k then (k, v) else p) = some v := by
  induction m with
  | nil => simp at hk
  | cons p rest ih =>
    obtain ⟨k2, v2⟩ := p
    by_cases h : k2 = k
    · subst h
      simp only [List.map_cons, beq_self_eq_true, if_pos]
      rw [lookup_cons_eq]
      simp
    · have hk2 : k ∈ rest.map Prod.fst := by
        rw [List.map_cons] at hk
        rcases List.mem_cons.mp hk with hc | hc
        · exact absurd hc.symm h
        · exact hc
      simp only [List.map_cons, beq_eq_false_iff_ne.mpr h, if_neg,
        Bool.false_eq_true, not_false_eq_true]
      rw [lookup_cons_eq, if_neg (fun hh => h hh.symm)]
      exact ih hk2

theorem lookup_update_other {β : Type} (m : List (String × β)) (k s : String)
    (v : β) (hs : s ≠ k) :
    List.lookup s (m.map fun p => if p.1 == k then (k, v) else p) =
      List.lookup s m := by
  induction m with
  | nil => rfl
  | cons p rest ih =>
    obtain ⟨k2, v2⟩ := p
    by_cases h : k2 = k
    · subst h
      simp only [List.map_cons, beq_self_eq_true, if_pos]
      rw [lookup_cons_eq, lookup_cons_eq, if_neg hs, if_neg hs]
      exact ih
    · simp only [List.map_cons, beq_eq_false_iff_ne.mpr h, if_neg,
        Bool.false_eq_true, not_false_eq_true]
      rw [lookup_cons_eq, lookup_cons_eq]
      by_cases h2 : s = k2
      · rw [if_pos h2, if_pos h2]
      · rw [if_neg h2, if_neg h2]; exact ih

theorem lookup_dinsert {β : Type} (m : List (String × β)) (k s : String)
    (v : β) :
    (dinsert m k v).lookup s = if s = k then some v else m.lookup s := by
  unfold dinsert
  by_cases hk : (m.any fun p => p.1 == k) = true
  · rw [if_pos hk]
    by_cases hs : s = k
    · subst hs
      rw [if_pos rfl, lookup_update_self m s v ((any_beq_iff m s).mp hk)]
    · rw [if_neg hs, lookup_update_other m k s v hs]
  · rw [if_neg hk, lookup_append_single]
    have hkmem : k ∉ m.map Prod.fst := fun hmem => hk ((any_beq_iff m k).mpr hmem)
    by_cases hs : s = k
    · subst hs
      rw [(lookup_eq_none_iff m s).mpr hkmem]
    · cases hls : m.lookup s
      · simp [hs]
      · simp [hs]

theorem read_affiliations_from_spec (lines : List String)
    (hwf : ∀ line ∈ lines, (pySplit '\t' (pyRstrip line)).length = 2) :
    ∀ acc, ∃ m, read_affiliations_from acc lines = Except.ok m ∧
      ∀ s, m.lookup s =
        match lastValFor s lines with
        | some v => some v
        | none => acc.lookup s := by
  induction lines with
  | nil => exact fun acc => ⟨acc, rfl, fun s => rfl⟩
  | cons l rest ih =>
    intro acc
    have hl : (pySplit '\t' (pyRstrip l)).length = 2 := hwf l (by simp)
    obtain ⟨k, v, hkv⟩ : ∃ k v, pySplit '\t' (pyRstrip l) = [k, v] := by
      cases hsp : pySplit '\t' (pyRstrip l) with
      | nil => rw [hsp] at hl; simp at hl
      | cons x xs =>
        cases xs with
        | nil => rw [hsp] at hl; simp at hl
        | cons y ys =>
          cases ys with
          | nil => exact ⟨x, y, rfl⟩
          | cons z zs => rw [hsp] at hl; simp at hl
    have hparse : parseAffiliationLine l = Except.ok (k, v) := by
      unfold parseAffiliationLine; rw [hkv]
    obtain ⟨m, hm, hlook⟩ := ih (fun b hb => hwf b (by simp [hb])) (dinsert acc k v)
    refine ⟨m, ?_, ?_⟩
    · rw [read_affiliations_from, hparse, except_bind_ok]
      exact hm
    · intro s
      rw [hlook s]
      cases hrest : lastValFor s rest with
      | some w => simp [lastValFor, hrest]
      | none =>
        rw [lookup_dinsert]
        simp only [lastValFor, hrest, hkv]
        by_cases hs : s = k
        · subst hs; simp
        · rw [if_neg hs, if_neg (fun hh => hs hh.symm)]

/-- C7: duplicate shorthand keys in the affiliations file do not make
loading fail: for any file whose lines all split into two fields after
right-trimming, `read_affiliations` succeeds, and the mapping holds,
for every shorthand, the full name from the last line carrying that
shorthand (`lastValFor`); earlier occurrences are silently
overwritten. -/
theorem read_affiliations_duplicate_last_wins (lines : List String)
    (hwf : ∀ line ∈ lines, (pySplit '\t' (pyRstrip line)).length = 2) :
    ∃ m, read_affiliations lines = Except.ok m ∧
      ∀ s, m.lookup s = lastValFor s lines := by
  obtain ⟨m, hm, hlook⟩ := read_affiliations_from_spec lines hwf []
  refine ⟨m, hm, fun s => ?_⟩
  rw [hlook s]
  cases h : lastValFor s lines <;> rfl

/-- Witness for C7: the affiliations file defines `a` twice; loading
succeeds and keeps the second full name. -/
theorem read_affiliations_duplicate_last_wins_witness :
    ∃ m, read_affiliations ["a\tMIT", "a\tStanford", "b\tBroad"] =
        Except.ok m ∧
      ∀ s, m.lookup s = lastValFor s ["a\tMIT", "a\tStanford", "b\tBroad"] :=
  read_affiliations_duplicate_last_wins ["a\tMIT", "a\tStanford", "b\tBroad"]
    (by decide)

/-- C10: two lines of the authors file with the same author name
collapse to a single entry of the ordered dict: the affiliation list is
the one of the last such line, while the entry keeps the position of
the first such line (here, before the distinct author `m`), so only one
rendered entry appears for that author. -/
theorem read_authors_duplicate_name (n m f1 g f2 : String)
    (h1 : pySplit '\t' (pyStrip (n ++ "\t" ++ f1)) = [n, f1])
    (h2 : pySplit '\t' (pyStrip (m ++ "\t" ++ g)) = [m, g])
    (h3 : pySplit '\t' (pyStrip (n ++ "\t" ++ f2)) = [n, f2])
    (hnm : n ≠ m) :
    read_authors [n ++ "\t" ++ f1, m ++ "\t" ++ g, n ++ "\t" ++ f2] =
      Except.ok [(n, pySplit ',' f2), (m, pySplit ',' g)] := by
  have p1 : parseAuthorLine (n ++ "\t" ++ f1) = Except.ok (n, pySplit ',' f1) := by
    unfold parseAuthorLine; rw [h1]
  have p2 : parseAuthorLine (m ++ "\t" ++ g) = Except.ok (m, pySplit ',' g) := by
    unfold parseAuthorLine; rw [h2]
  have p3 : parseAuthorLine (n ++ "\t" ++ f2) = Except.ok (n, pySplit ',' f2) := by
    unfold parseAuthorLine; rw [h3]
  have e2 : dinsert [(n, pySplit ',' f1)] m (pySplit ',' g) =
      [(n, pySplit ',' f1), (m, pySplit ',' g)] := by
    simp [dinsert, beq_eq_false_iff_ne.mpr hnm]
  have e3 : dinsert [(n, pySplit ',' f1), (m, pySplit ',' g)] n (pySplit ',' f2) =
      [(n, pySplit ',' f2), (m, pySplit ',' g)] := by
    unfold dinsert
    rw [if_pos (by simp)]
    simp [Ne.symm hnm]
  simp only [read_authors, read_authors_from, p1, p2, p3, except_bind_ok]
  rw [show dinsert ([] : List (String × List String)) n (pySplit ',' f1) =
    [(n, pySplit ',' f1)] from rfl, e2, e3]

/-- Witness for C10: author `A` appears on the first and third line;
the loaded dict has one entry for `A`, holding the affiliations of the
third line, placed before `B`. -/
theorem read_authors_duplicate_name_witness :
    read_authors ["A\ta", "B\tb", "A\tc,d"] =
      Except.ok [("A", ["c", "d"]), ("B", ["b"])] := by
  have h := read_authors_duplicate_name "A" "B" "a" "b" "c,d"
    (by decide) (by decide) (by decide) (by decide)
  simpa using h

/-- Characterization used by C9: a single-token author name produces an
empty first mbox group, a space, then the name in the second group. -/
theorem author_mbox_single (author : String)
    (h : pySplit ' ' author = [author]) :
    author_mbox author = "\\mbox\x7b\x7d \\mbox\x7b" ++ author ++ "\x7d" := by
  unfold author_mbox
  rw [h]
  rfl

/-- C9: when an author name contains no space, the LaTeX author entry
is `\mbox{} \mbox{<name>}` followed by the superscript marker: the
first non-breaking group is empty and a space still precedes the
second group. -/
theorem author_single_token_latex (numbering : List (String × Nat))
    (author : String) (affs : List String) (ns : String)
    (h : pySplit ' ' author = [author])
    (hn : numbers_str_of numbering affs = Except.ok ns) :
    ∃ html, authorLoop numbering [(author, affs)] 0 "" "" =
      Except.ok (html,
        "\\mbox\x7b\x7d \\mbox\x7b" ++ author ++ "\x7d$^\x7b" ++ ns ++ "\x7d$") := by
  have hm := author_mbox_single author h
  rw [authorLoop, hn, except_bind_ok, authorLoop]
  refine ⟨("" ++ if 0 > 0 then ", " else "") ++ author ++ "<sup>" ++ ns ++ "</sup>", ?_⟩
  simp only [Except.ok.injEq, Prod.mk.injEq]
  refine ⟨trivial, ?_⟩
  rw [hm]
  simp only [String.append_assoc]
  rfl

/-- Witness for C9: the single-token author `Alice` with one
affiliation. -/
theorem author_single_token_latex_witness :
    ∃ html, authorLoop [("a", 1)] [("Alice", ["a"])] 0 "" "" =
      Except.ok (html,
        "\\mbox\x7b\x7d \\mbox\x7bAlice\x7d$^\x7b" ++ "1" ++ "\x7d$") :=
  author_single_token_latex [("a", 1)] "Alice" ["a"] "1" (by decide) (by decide)

set_option maxRecDepth 8192 in
/-- C8: the worked example: authors Alice (affiliation `a`) and Bob
(affiliations `b`, `a`) with table `{a: MIT, b: Stanford}` produce the
numbering `{a: 1, b: 2}`, the HTML author block
`Alice<sup>1</sup>, Bob<sup>1,2</sup>` and the HTML footer
`<sup>1</sup>MIT. <sup>2</sup>Stanford.`. -/
theorem example_two_authors :
    assign_numbers [("Alice", ["a"]), ("Bob", ["b", "a"])] =
      [("a", 1), ("b", 2)] ∧
    (authorLoop (assign_numbers [("Alice", ["a"]), ("Bob", ["b", "a"])])
        [("Alice", ["a"]), ("Bob", ["b", "a"])] 0 "" "").map Prod.fst =
      Except.ok "Alice<sup>1</sup>, Bob<sup>1,2</sup>" ∧
    affiliations_ordered [("a", "MIT"), ("b", "Stanford")]
        (assign_numbers [("Alice", ["a"]), ("Bob", ["b", "a"])]) =
      Except.ok ["a", "b"] ∧
    (footerLoop (assign_numbers [("Alice", ["a"]), ("Bob", ["b", "a"])])
        [("a", "MIT"), ("b", "Stanford")] ["a", "b"] 0 "" "").map Prod.fst =
      Except.ok "<sup>1</sup>MIT. <sup>2</sup>Stanford." ∧
    (mainFromData [("Alice", ["a"]), ("Bob", ["b", "a"])]
        [("a", "MIT"), ("b", "Stanford")]).map Prod.fst =
      Except.ok
        "Alice<sup>1</sup>, Bob<sup>1,2</sup><br><br><sup>1</sup>MIT. <sup>2</sup>Stanford." := by
  decide
